import Mathlib

/-!
# Verification of the quarantine/restore core of `file_cleaner_quarantine.py`

This file gives a shallow embedding of the quarantine/restore subsystem of
`src/file_cleaner_quarantine.py` and proves the specification claims about it.

## Modelling conventions

* A filesystem path to a regular file is modelled by `FPath`: the directory
  that contains it (`parent`, as a plain string), together with the file
  name already split, the way the Python `pathlib` library splits it, into `stem` and
  `suffix` (the suffix is `""` or starts with a dot; the split itself is not
  re-verified here, the two pieces are carried explicitly).
* The filesystem state `FS` is a finite association list of existing regular
  files with their byte sizes, plus a finite list of existing directories.
  The model assumes the file namespace and the directory namespace are
  disjoint (no regular file sits at a path string used as a directory), which
  holds in every scenario the claims quantify over; consequently
  `Path.exists()` on a file path is file-set membership and on a directory
  path is directory-set membership.
* The Python `str(counter)` rendering (the f-string `f"{stem}_{counter}{suffix}"` in
  `_unique_path_if_exists`) is modelled by `natRepr`, a decimal renderer
  proved injective below via an explicit parser.
* Fallible OS calls (`unlink`, `shutil.move`, `mkdir`) are driven by an
  explicit `FSOracle` saying which calls succeed; the `try/except` blocks of
  the source become case splits on the oracle.  `okOracle` is the
  environment in which every OS call succeeds.
-/

/-- Decimal digit characters, as produced by `Nat.digitChar` for `n < 10`;
models the characters of the Python `str(int)` rendering. -/
def digitVal (c : Char) : Nat := c.toNat - 48

/-- Fuel-driven decimal rendering of a natural number, most significant digit
first.  With fuel `n + 1` this is exactly the decimal rendering of `n`. -/
def natReprAux : Nat → Nat → List Char
  | 0, _ => []
  | fuel + 1, n =>
    if n < 10 then [Nat.digitChar n]
    else natReprAux fuel (n / 10) ++ [Nat.digitChar (n % 10)]

/-- Decimal rendering of a natural number: the model of the Python `str(counter)`
call inside the f-string of `_unique_path_if_exists`. -/
def natRepr (n : Nat) : String := ⟨natReprAux (n + 1) n⟩

/-- Left-fold decimal parser, inverse of `natReprAux`. -/
def parseDigits (cs : List Char) : Nat := cs.foldl (fun acc c => acc * 10 + digitVal c) 0

theorem parseDigits_append_one (cs : List Char) (c : Char) :
    parseDigits (cs ++ [c]) = parseDigits cs * 10 + digitVal c := by
  unfold parseDigits
  rw [List.foldl_append]
  rfl

theorem digitVal_digitChar {n : Nat} (h : n < 10) : digitVal (Nat.digitChar n) = n := by
  interval_cases n <;> rfl

theorem parseDigits_natReprAux {fuel n : Nat} (h : n < fuel) :
    parseDigits (natReprAux fuel n) = n := by
  induction fuel generalizing n with
  | zero => omega
  | succ fuel ih =>
    unfold natReprAux
    by_cases h10 : n < 10
    · simp only [if_pos h10]
      unfold parseDigits
      simp [digitVal_digitChar h10]
    · simp only [if_neg h10]
      rw [parseDigits_append_one]
      have hd : n / 10 < fuel := by
        have := Nat.div_lt_self (by omega : 0 < n) (by omega : 1 < 10)
        omega
      rw [ih hd, digitVal_digitChar (Nat.mod_lt n (by omega))]
      omega

theorem natRepr_injective : Function.Injective natRepr := by
  intro a b hab
  have : natReprAux (a + 1) a = natReprAux (b + 1) b := congrArg String.data hab
  have ha := parseDigits_natReprAux (Nat.lt_succ_self a)
  have hb := parseDigits_natReprAux (Nat.lt_succ_self b)
  rw [this, hb] at ha
  exact ha.symm

theorem natReprAux_ne_nil {fuel n : Nat} (h : n < fuel) : natReprAux fuel n ≠ [] := by
  cases fuel with
  | zero => omega
  | succ fuel =>
    unfold natReprAux
    by_cases h10 : n < 10 <;> simp [h10]

/-- A path to a regular file: the containing directory as a plain string,
and the file name split into `stem` and `suffix` the way `pathlib` splits it
(`suffix` is the final extension, dot included, or `""`). -/
structure FPath where
  parent : String
  stem : String
  suffix : String
deriving DecidableEq, Repr

/-- A journal entry, the dict built by `safe_move` (source lines 66–81).
Field names follow the JSON keys of the source: note the key is `time`,
not `timestamp`. -/
structure MoveRecord where
  original : FPath
  moved_to : FPath
  size : Option Nat
  time : String
  action : String
deriving DecidableEq, Repr

/-- The JSON keys of the metadata dict assembled by `safe_move`
(source lines 66–72 and 75–81), in source order. -/
def moveRecordFields : List String := ["original", "moved_to", "size", "time", "action"]

/-- Filesystem state: existing regular files with their byte sizes, and
existing directories. -/
structure FS where
  files : List (FPath × Nat)
  dirs : List String
deriving DecidableEq, Repr

/-- Size lookup in the file table (`Path.stat().st_size`, `none` = absent). -/
def lookupSize : List (FPath × Nat) → FPath → Option Nat
  | [], _ => none
  | (q, n) :: rest, p => if q = p then some n else lookupSize rest p

/-- Remove every entry at a path from the file table. -/
def eraseFile : List (FPath × Nat) → FPath → List (FPath × Nat)
  | [], _ => []
  | (q, n) :: rest, p => if q = p then eraseFile rest p else (q, n) :: eraseFile rest p

def FS.sizeOf? (fs : FS) (p : FPath) : Option Nat := lookupSize fs.files p

/-- Model of `Path.exists()` for a file path. -/
def FS.hasFile (fs : FS) (p : FPath) : Bool := (fs.sizeOf? p).isSome

/-- Model of `Path.exists()` for a directory path. -/
def FS.hasDir (fs : FS) (d : String) : Bool := fs.dirs.contains d

def FS.removeFile (fs : FS) (p : FPath) : FS := { fs with files := eraseFile fs.files p }

def FS.addFile (fs : FS) (p : FPath) (n : Nat) : FS := { fs with files := (p, n) :: fs.files }

/-- Model of `mkdir(parents=True, exist_ok=True)`: record the directory as existing.
(Ancestors are not tracked individually; no claim inspects them.) -/
def FS.addDir (fs : FS) (d : String) : FS :=
  if fs.dirs.contains d then fs else { fs with dirs := d :: fs.dirs }

/-- Model of `shutil.move(src, dst)` on a filesystem where `src` exists: the content
(here: the byte size) leaves `src` and appears at `dst`. -/
def FS.moveFile (fs : FS) (src dst : FPath) : FS :=
  match fs.sizeOf? src with
  | some n => (fs.removeFile src).addFile dst n
  | none => fs

theorem lookupSize_eraseFile (l : List (FPath × Nat)) (p q : FPath) :
    lookupSize (eraseFile l p) q = if q = p then none else lookupSize l q := by
  induction l with
  | nil => simp [eraseFile, lookupSize]
  | cons e rest ih =>
    obtain ⟨r, n⟩ := e
    by_cases hrp : r = p
    · subst hrp
      simp only [eraseFile, if_pos rfl, if_true]
      rw [ih]
      by_cases hqr : q = r
      · simp [hqr]
      · have hrq : ¬ r = q := fun h => hqr h.symm
        simp [lookupSize, hqr, hrq]
    · simp only [eraseFile, if_neg hrp, lookupSize]
      by_cases hrq : r = q
      · subst hrq
        have hqp : ¬ r = p := hrp
        simp [hqp]
      · simp [hrq, ih]

theorem sizeOf?_removeFile (fs : FS) (p q : FPath) :
    (fs.removeFile p).sizeOf? q = if q = p then none else fs.sizeOf? q := by
  simp [FS.removeFile, FS.sizeOf?, lookupSize_eraseFile]

theorem sizeOf?_addFile (fs : FS) (p : FPath) (n : Nat) (q : FPath) :
    (fs.addFile p n).sizeOf? q = if p = q then some n else fs.sizeOf? q := by
  simp [FS.addFile, FS.sizeOf?, lookupSize]

theorem sizeOf?_addDir (fs : FS) (d : String) (q : FPath) :
    (fs.addDir d).sizeOf? q = fs.sizeOf? q := by
  unfold FS.addDir
  split <;> rfl

theorem hasFile_addDir (fs : FS) (d : String) (q : FPath) :
    (fs.addDir d).hasFile q = fs.hasFile q := by
  simp [FS.hasFile, sizeOf?_addDir]

theorem sizeOf?_moveFile (fs : FS) (src dst : FPath) {n : Nat}
    (h : fs.sizeOf? src = some n) (q : FPath) :
    (fs.moveFile src dst).sizeOf? q =
      if dst = q then some n else if q = src then none else fs.sizeOf? q := by
  unfold FS.moveFile
  rw [h]
  simp only [sizeOf?_addFile, sizeOf?_removeFile]

/-- Membership in the file table, for the pigeonhole argument. -/
theorem mem_of_lookupSize_isSome {l : List (FPath × Nat)} {p : FPath}
    (h : (lookupSize l p).isSome) : p ∈ l.map Prod.fst := by
  induction l with
  | nil => simp [lookupSize] at h
  | cons e rest ih =>
    obtain ⟨q, n⟩ := e
    by_cases hqp : q = p
    · simp [hqp]
    · simp only [lookupSize, if_neg hqp] at h
      simp [ih h]

/-- The `n`-th collision candidate of `_unique_path_if_exists`:
`parent.joinpath(f"{stem}_{counter}{suffix}")` (source line 40). -/
def candidateAt (p : FPath) (n : Nat) : FPath :=
  ⟨p.parent, p.stem ++ "_" ++ natRepr n, p.suffix⟩

theorem candidateAt_stem_ne (p : FPath) (n : Nat) :
    (candidateAt p n).stem ≠ p.stem := by
  intro h
  have hlen := congrArg String.length h
  rw [candidateAt] at hlen
  simp only [String.length_append] at hlen
  have h1 : ("_" : String).length = 1 := rfl
  have h2 : (natRepr n).length = (natReprAux (n + 1) n).length := rfl
  have h3 : natReprAux (n + 1) n ≠ [] := natReprAux_ne_nil (Nat.lt_succ_self n)
  have h4 : 0 < (natReprAux (n + 1) n).length := List.length_pos.mpr h3
  omega

theorem candidateAt_ne (p : FPath) (n : Nat) : candidateAt p n ≠ p := by
  intro h
  exact candidateAt_stem_ne p n (congrArg FPath.stem h)

theorem candidateAt_injective (p : FPath) : Function.Injective (candidateAt p) := by
  intro i j hij
  have hstem : p.stem ++ "_" ++ natRepr i = p.stem ++ "_" ++ natRepr j :=
    congrArg FPath.stem hij
  have hdata := congrArg String.data hstem
  simp only [String.data_append] at hdata
  have hr : (natRepr i).data = (natRepr j).data := by
    rwa [List.append_assoc, List.append_assoc, List.append_cancel_left_eq,
      List.append_cancel_left_eq] at hdata
  have : natRepr i = natRepr j := by
    cases hi : natRepr i
    cases hj : natRepr j
    rw [hi, hj] at hr
    simp at hr
    rw [hr]
  exact natRepr_injective this

/-- The search loop of `_unique_path_if_exists` (source lines 39–43): try
candidates `i, i+1, ...` against the existence check `ex` until one is free.
The fuel argument makes the recursion structural; it is always called with
enough fuel for a free candidate to be in range. -/
def uniqueSearch (ex : FPath → Bool) (p : FPath) : Nat → Nat → FPath
  | 0, i => candidateAt p i
  | fuel + 1, i => if ex (candidateAt p i) then uniqueSearch ex p fuel (i + 1) else candidateAt p i

/-- Embedding of `_unique_path_if_exists` (source lines 31–43): return `path` unchanged if
nothing exists there, else the first free candidate `{stem}_{n}{suffix}` for
`n = 1, 2, 3, ...`.  Pure: takes the filesystem, returns only a path. -/
def unique_path_if_exists (fs : FS) (p : FPath) : FPath :=
  if fs.hasFile p then uniqueSearch fs.hasFile p (fs.files.length + 1) 1 else p

theorem uniqueSearch_is_candidate (ex : FPath → Bool) (p : FPath) (fuel i : Nat) :
    ∃ j, uniqueSearch ex p fuel i = candidateAt p j := by
  induction fuel generalizing i with
  | zero => exact ⟨i, rfl⟩
  | succ fuel ih =>
    unfold uniqueSearch
    by_cases h : ex (candidateAt p i)
    · simpa [h] using ih (i + 1)
    · exact ⟨i, by simp [h]⟩

theorem uniqueSearch_first_free (ex : FPath → Bool) (p : FPath) :
    ∀ fuel i, (∃ j, j < fuel ∧ ex (candidateAt p (i + j)) = false) →
      ∃ j, uniqueSearch ex p fuel i = candidateAt p (i + j) ∧
        ex (candidateAt p (i + j)) = false ∧
        ∀ k, k < j → ex (candidateAt p (i + k)) = true := by
  intro fuel
  induction fuel with
  | zero =>
    intro i h
    obtain ⟨j, hj, _⟩ := h
    omega
  | succ fuel ih =>
    intro i h
    by_cases hex : ex (candidateAt p i)
    · obtain ⟨j, hj, hfree⟩ := h
      have hj0 : j ≠ 0 := by
        intro h0
        rw [h0, Nat.add_zero] at hfree
        rw [hex] at hfree
        exact Bool.noConfusion hfree
      obtain ⟨j1, rfl⟩ := Nat.exists_eq_succ_of_ne_zero hj0
      have hpre : ∃ j, j < fuel ∧ ex (candidateAt p (i + 1 + j)) = false := by
        refine ⟨j1, by omega, ?_⟩
        have : i + 1 + j1 = i + (j1 + 1) := by omega
        rw [this]
        exact hfree
      obtain ⟨j2, heq, hfr, hmin⟩ := ih (i + 1) hpre
      refine ⟨j2 + 1, ?_, ?_, ?_⟩
      · unfold uniqueSearch
        rw [if_pos hex, heq]
        have : i + 1 + j2 = i + (j2 + 1) := by omega
        rw [this]
      · have : i + (j2 + 1) = i + 1 + j2 := by omega
        rw [this]
        exact hfr
      · intro k hk
        cases k with
        | zero => simpa using hex
        | succ k1 =>
          have : i + (k1 + 1) = i + 1 + k1 := by omega
          rw [this]
          exact hmin k1 (by omega)
    · refine ⟨0, ?_, ?_, ?_⟩
      · unfold uniqueSearch
        rw [if_neg hex, Nat.add_zero]
      · rw [Nat.add_zero]
        exact Bool.of_not_eq_true hex
      · intro k hk
        omega

theorem unique_path_of_absent (fs : FS) (p : FPath) (h : fs.hasFile p = false) :
    unique_path_if_exists fs p = p := by
  unfold unique_path_if_exists
  simp [h]

theorem unique_path_keeps_shape (fs : FS) (p : FPath) :
    (unique_path_if_exists fs p).parent = p.parent ∧
      (unique_path_if_exists fs p).suffix = p.suffix := by
  unfold unique_path_if_exists
  by_cases h : fs.hasFile p
  · rw [if_pos h]
    obtain ⟨j, hj⟩ := uniqueSearch_is_candidate fs.hasFile p (fs.files.length + 1) 1
    rw [hj]
    exact ⟨rfl, rfl⟩
  · rw [if_neg h]
    exact ⟨rfl, rfl⟩

/-- Pigeonhole: among the first `length + 1` candidates at least one is not in
the file table, so the search loop of `_unique_path_if_exists` terminates. -/
theorem exists_free_candidate (fs : FS) (p : FPath) :
    ∃ j, j < fs.files.length + 1 ∧ fs.hasFile (candidateAt p (1 + j)) = false := by
  by_contra hall
  push_neg at hall
  have hall2 : ∀ j, j < fs.files.length + 1 → fs.hasFile (candidateAt p (1 + j)) = true := by
    intro j hj
    have := hall j hj
    cases hb : fs.hasFile (candidateAt p (1 + j))
    · exact absurd hb this
    · rfl
  have hcard : (Finset.range (fs.files.length + 1)).card ≤
      (fs.files.map Prod.fst).toFinset.card := by
    apply Finset.card_le_card_of_injOn (fun j => candidateAt p (1 + j))
    · intro j hj
      rw [Finset.mem_range] at hj
      rw [List.mem_toFinset]
      exact mem_of_lookupSize_isSome (by
        have := hall2 j hj
        simpa [FS.hasFile, FS.sizeOf?] using this)
    · intro a _ b _ hab
      have := candidateAt_injective p hab
      omega
  rw [Finset.card_range] at hcard
  have hle : (fs.files.map Prod.fst).toFinset.card ≤ fs.files.length := by
    calc (fs.files.map Prod.fst).toFinset.card ≤ (fs.files.map Prod.fst).length :=
          List.toFinset_card_le _
      _ = fs.files.length := List.length_map _ _
  omega

theorem unique_path_of_present (fs : FS) (p : FPath) (h : fs.hasFile p = true) :
    ∃ n, 1 ≤ n ∧ unique_path_if_exists fs p = candidateAt p n ∧
      fs.hasFile (candidateAt p n) = false ∧
      ∀ m, 1 ≤ m → m < n → fs.hasFile (candidateAt p m) = true := by
  obtain ⟨j, hj, hfree⟩ := exists_free_candidate fs p
  obtain ⟨j2, heq, hfr, hmin⟩ :=
    uniqueSearch_first_free fs.hasFile p (fs.files.length + 1) 1 ⟨j, hj, hfree⟩
  refine ⟨1 + j2, by omega, ?_, hfr, ?_⟩
  · unfold unique_path_if_exists
    rw [if_pos h]
    exact heq
  · intro m h1 hm
    have hme : m = 1 + (m - 1) := by omega
    rw [hme]
    exact hmin (m - 1) (by omega)

theorem unique_path_not_exists (fs : FS) (p : FPath) :
    fs.hasFile (unique_path_if_exists fs p) = false := by
  by_cases h : fs.hasFile p
  · obtain ⟨n, _, heq, hfree, _⟩ := unique_path_of_present fs p h
    rw [heq]
    exact hfree
  · rw [unique_path_of_absent fs p (Bool.of_not_eq_true h)]
    exact Bool.of_not_eq_true h

/-- C3: PathNamer contract: if nothing exists at `P`, `unique(P) = P`;
if `P` exists, `unique(P)` is the candidate `{stem}_{n}{ext}` for the
smallest `n = 1, 2, 3, ...` that does not exist (hence `unique(P) ≠ P` and
`unique(P)` does not exist); the computation is a pure function of the
filesystem (deterministic, and it returns a path without touching the `FS`
state, i.e. no creation); a path with no extension yields candidates with no
extension. -/
theorem pathnamer_unique_contract (fs : FS) (p : FPath) :
    (fs.hasFile p = false → unique_path_if_exists fs p = p) ∧
    (fs.hasFile p = true →
      ∃ n, 1 ≤ n ∧ unique_path_if_exists fs p = candidateAt p n ∧
        fs.hasFile (candidateAt p n) = false ∧
        (∀ m, 1 ≤ m → m < n → fs.hasFile (candidateAt p m) = true) ∧
        unique_path_if_exists fs p ≠ p ∧
        fs.hasFile (unique_path_if_exists fs p) = false) ∧
    (p.suffix = "" →
      (unique_path_if_exists fs p).suffix = "" ∧ ∀ n, (candidateAt p n).suffix = "") := by
  refine ⟨unique_path_of_absent fs p, ?_, ?_⟩
  · intro h
    obtain ⟨n, h1, heq, hfree, hmin⟩ := unique_path_of_present fs p h
    refine ⟨n, h1, heq, hfree, hmin, ?_, unique_path_not_exists fs p⟩
    rw [heq]
    exact candidateAt_ne p n
  · intro h
    refine ⟨?_, fun n => h⟩
    rw [(unique_path_keeps_shape fs p).2]
    exact h

/-- Concrete filesystem for the C3 witness: `/d/a.txt` and `/d/a_1.txt`
exist, so the unique path for `/d/a.txt` must be `/d/a_2.txt`. -/
def c3fs : FS :=
  { files := [(⟨"/d", "a", ".txt"⟩, 5), (⟨"/d", "a_1", ".txt"⟩, 7)], dirs := ["/d"] }

theorem pathnamer_unique_contract_witness :
    c3fs.hasFile ⟨"/d", "a", ".txt"⟩ = true ∧
    (∃ n, 1 ≤ n ∧
      unique_path_if_exists c3fs ⟨"/d", "a", ".txt"⟩ = candidateAt ⟨"/d", "a", ".txt"⟩ n ∧
      c3fs.hasFile (candidateAt ⟨"/d", "a", ".txt"⟩ n) = false ∧
      (∀ m, 1 ≤ m → m < n → c3fs.hasFile (candidateAt ⟨"/d", "a", ".txt"⟩ m) = true) ∧
      unique_path_if_exists c3fs ⟨"/d", "a", ".txt"⟩ ≠ ⟨"/d", "a", ".txt"⟩ ∧
      c3fs.hasFile (unique_path_if_exists c3fs ⟨"/d", "a", ".txt"⟩) = false) :=
  ⟨by decide, (pathnamer_unique_contract c3fs ⟨"/d", "a", ".txt"⟩).2.1 (by decide)⟩

/-- Embedding of `src.relative_to(target_root)` restricted to the directory part:
`some ""` when the directory of `src` is the root itself, `some d` when it is the
subdirectory `d` of the root, `none` when `src` is not under the root (the
`except` branch of source lines 52–55). -/
def relParentOf (srcParent root : String) : Option String :=
  if srcParent = root then some ""
  else if srcParent.startsWith (root ++ "/") then some (srcParent.drop (root ++ "/").length)
  else none

/-- Destination base selection of `safe_move` (source lines 51–60):
`dst_dir/relative(src, target_root)` under `preserve_structure`, else
`dst_dir/basename(src)`; falling back to the basename when `src` is not
relative to `target_root`. -/
def destBase (dstDir : String) (preserve : Bool) (root : String) (src : FPath) : FPath :=
  if preserve then
    match relParentOf src.parent root with
    | some "" => ⟨dstDir, src.stem, src.suffix⟩
    | some d => ⟨dstDir ++ "/" ++ d, src.stem, src.suffix⟩
    | none => ⟨dstDir, src.stem, src.suffix⟩
  else ⟨dstDir, src.stem, src.suffix⟩

/-- Embedding of `safe_move` (source lines 45–82).  The destination parent is created
*before* the dry-run check; under `dry_run` no move happens and the record is
tagged `dry-run` with the size read from `src`; otherwise the file is moved
and the record is tagged `moved` with the size read from the final
destination.  `now` stands for `time.strftime(...)`. -/
def safe_move (fs : FS) (src : FPath) (dstDir : String) (preserve : Bool)
    (root : String) (now : String) (dryRun : Bool) : FS × FPath × MoveRecord :=
  let destPath := destBase dstDir preserve root src
  let fs1 := fs.addDir destPath.parent
  let finalDest := unique_path_if_exists fs1 destPath
  if dryRun then
    (fs1, finalDest,
      { original := src, moved_to := finalDest, size := fs1.sizeOf? src,
        time := now, action := "dry-run" })
  else
    let fs2 := fs1.moveFile src finalDest
    (fs2, finalDest,
      { original := src, moved_to := finalDest, size := fs2.sizeOf? finalDest,
        time := now, action := "moved" })

/-- Which OS calls succeed: drives the `try/except` blocks of the source.
`unlinkOk` for `Path.unlink`, `moveOk` for `shutil.move`, `mkdirOk` for
`Path.mkdir`. -/
structure FSOracle where
  unlinkOk : FPath → Bool
  moveOk : FPath → FPath → Bool
  mkdirOk : String → Bool

/-- The environment in which every OS call succeeds. -/
def okOracle : FSOracle where
  unlinkOk := fun _ => true
  moveOk := fun _ _ => true
  mkdirOk := fun _ => true

/-- Classification of one journal record by the restore loop: the entry it
appends to `restored`, `skipped` or `errors` (source lines 116–177).  The
exception text interpolated into the reason strings is elided. -/
inductive ROutcome where
  | restored (toPath fromPath : FPath)
  | skipped (original moved_to : FPath) (reason : String)
  | error (original moved_to : FPath) (reason : String)
deriving DecidableEq, Repr

/-- One iteration of the loop of `restore_from_quarantine`
(source lines 120–177). -/
def restoreStep (oc : FSOracle) (dryRun yes : Bool) (fs : FS) (r : MoveRecord) :
    FS × ROutcome :=
  let original := r.original
  let moved_to := r.moved_to
  if fs.hasFile moved_to = false then
    (fs, ROutcome.skipped original moved_to "moved file missing")
  else
    let targetParent := original.parent
    let cont := fun (fs1 : FS) =>
      if fs1.hasFile original = true then
        if yes then
          if dryRun then (fs1, ROutcome.restored original moved_to)
          else
            if oc.unlinkOk original = true then
              let fsU := fs1.removeFile original
              if oc.moveOk moved_to original = true then
                (fsU.moveFile moved_to original, ROutcome.restored original moved_to)
              else
                let cand := unique_path_if_exists fsU original
                if oc.moveOk moved_to cand = true then
                  (fsU.moveFile moved_to cand, ROutcome.restored cand moved_to)
                else (fsU, ROutcome.error original moved_to "overwrite error; fallback failed")
            else
              let cand := unique_path_if_exists fs1 original
              if oc.moveOk moved_to cand = true then
                (fs1.moveFile moved_to cand, ROutcome.restored cand moved_to)
              else (fs1, ROutcome.error original moved_to "overwrite error; fallback failed")
        else
          let cand := unique_path_if_exists fs1 original
          if dryRun then (fs1, ROutcome.restored cand moved_to)
          else if oc.moveOk moved_to cand = true then
            (fs1.moveFile moved_to cand, ROutcome.restored cand moved_to)
          else (fs1, ROutcome.error original moved_to "collision handling error")
      else
        if dryRun then (fs1, ROutcome.restored original moved_to)
        else if oc.moveOk moved_to original = true then
          (fs1.moveFile moved_to original, ROutcome.restored original moved_to)
        else (fs1, ROutcome.error original moved_to "move error")
    if fs.hasDir targetParent = false then
      if dryRun then cont fs
      else if oc.mkdirOk targetParent = true then cont (fs.addDir targetParent)
      else (fs, ROutcome.error original moved_to "failed to create parent")
    else cont fs

/-- The three summary buckets printed at the end of
`restore_from_quarantine` (source lines 116–118 and 179–192). -/
structure RestoreReport where
  restored : List (FPath × FPath)
  skipped : List (FPath × FPath × String)
  errors : List (FPath × FPath × String)
deriving DecidableEq, Repr

def emptyReport : RestoreReport := ⟨[], [], []⟩

def consOutcome (o : ROutcome) (rep : RestoreReport) : RestoreReport :=
  match o with
  | ROutcome.restored t f => { rep with restored := (t, f) :: rep.restored }
  | ROutcome.skipped a m s => { rep with skipped := (a, m, s) :: rep.skipped }
  | ROutcome.error a m s => { rep with errors := (a, m, s) :: rep.errors }

/-- The record loop of `restore_from_quarantine` (source lines 120–177):
records are processed in journal order, each appending to one bucket. -/
def runRestore (oc : FSOracle) (dryRun yes : Bool) : FS → List MoveRecord → FS × RestoreReport
  | fs, [] => (fs, emptyReport)
  | fs, r :: rest =>
    let step := restoreStep oc dryRun yes fs r
    let next := runRestore oc dryRun yes step.1 rest
    (next.1, consOutcome step.2 next.2)

/-- The on-disk state of `<quarantineDir>/metadata.json`: absent, present but
unparseable, or a parseable JSON array of records. -/
inductive JournalFile where
  | absent
  | corrupt
  | records (rs : List MoveRecord)
deriving DecidableEq, Repr

/-- The journal file location, `quarantine_dir.joinpath("metadata.json")`
(source lines 85 and 105). -/
def metadataPath (quarantineDir : String) : String := quarantineDir ++ "/metadata.json"

/-- The read step of `write_metadata` (source lines 86–92): no file or an
unparseable file both yield the empty starting list. -/
def journalExistingForAppend : JournalFile → List MoveRecord
  | JournalFile.absent => []
  | JournalFile.corrupt => []
  | JournalFile.records rs => rs

/-- Embedding of `write_metadata` (source lines 84–94): read-modify-write of the whole
array; `json.dumps(existing, indent=2)` then replaces the file content. -/
def write_metadata (jf : JournalFile) (records : List MoveRecord) : JournalFile :=
  JournalFile.records (journalExistingForAppend jf ++ records)

/-- The `indent` argument of the `json.dumps` call in `write_metadata`
(source line 94). -/
def writeMetadataIndent : Nat := 2

/-- Embedding of `restore_from_quarantine` (source lines 104–114): with no `metadata.json`
or an unparseable one it prints a message and returns without touching
anything; otherwise it runs the record loop. -/
def restore_from_quarantine (oc : FSOracle) (jf : JournalFile) (dryRun yes : Bool)
    (fs : FS) : Option (FS × RestoreReport) :=
  match jf with
  | JournalFile.absent => none
  | JournalFile.corrupt => none
  | JournalFile.records rs => some (runRestore oc dryRun yes fs rs)

/-- C6: `write_metadata` is a read-modify-write that never fails on a bad
existing journal: with no journal file it starts from the empty list, with an
unparseable journal it treats it as empty and proceeds (overwriting the
corrupt content), and in all cases it writes the existing records with the
new records appended.  Totality of `write_metadata` is the model of
"never throws". -/
theorem journal_append_read_modify_write (jf : JournalFile)
    (records rs : List MoveRecord) :
    write_metadata jf records =
      JournalFile.records (journalExistingForAppend jf ++ records) ∧
    journalExistingForAppend JournalFile.absent = [] ∧
    journalExistingForAppend JournalFile.corrupt = [] ∧
    journalExistingForAppend (JournalFile.records rs) = rs ∧
    write_metadata JournalFile.corrupt records = JournalFile.records records :=
  ⟨rfl, rfl, rfl, rfl, rfl⟩

/-- C9 counterexample: The metadata dict written by `safe_move` has no
field named `timestamp`: the wall-clock field is keyed `time`
(source lines 70 and 79). -/
theorem moveRecordFields_no_timestamp :
    "timestamp" ∉ moveRecordFields ∧ "time" ∈ moveRecordFields := by
  decide

/-- C9 amended: Every MoveRecord written to the journal carries exactly
the fields `original`, `moved_to`, `size`, `time`, `action` (with `action`
one of `moved` or `dry-run`), and the journal on disk is a single JSON array
of such records, pretty-printed with 2-space indentation, stored at
`<quarantineDir>/metadata.json`. -/
theorem journal_record_format (fs : FS) (src : FPath) (dstDir root now qdir : String)
    (preserve dryRun : Bool) (jf : JournalFile) (records : List MoveRecord) :
    moveRecordFields = ["original", "moved_to", "size", "time", "action"] ∧
    ((safe_move fs src dstDir preserve root now dryRun).2.2.action = "moved" ∨
      (safe_move fs src dstDir preserve root now dryRun).2.2.action = "dry-run") ∧
    metadataPath qdir = qdir ++ "/metadata.json" ∧
    write_metadata jf records =
      JournalFile.records (journalExistingForAppend jf ++ records) ∧
    writeMetadataIndent = 2 := by
  refine ⟨rfl, ?_, rfl, rfl, rfl⟩
  cases dryRun
  · left
    simp [safe_move]
  · right
    simp [safe_move]

/-- C7: A record whose `moved_to` does not exist is classified skipped
with reason "moved file missing" and nothing else is done for it; a restore
run over a journal all of whose `moved_to` targets are gone reports every
record skipped, zero errors, zero restorations, and leaves the filesystem
unchanged (so restore is idempotent once targets are gone). -/
theorem restore_skips_missing_moved_to (oc : FSOracle) (dryRun yes : Bool) :
    (∀ fs r, fs.hasFile r.moved_to = false →
      restoreStep oc dryRun yes fs r =
        (fs, ROutcome.skipped r.original r.moved_to "moved file missing")) ∧
    (∀ fs recs, (∀ r ∈ recs, fs.hasFile r.moved_to = false) →
      runRestore oc dryRun yes fs recs =
        (fs, { restored := [],
               skipped := recs.map (fun r => (r.original, r.moved_to, "moved file missing")),
               errors := [] })) := by
  have hstep : ∀ fs r, FS.hasFile fs r.moved_to = false →
      restoreStep oc dryRun yes fs r =
        (fs, ROutcome.skipped r.original r.moved_to "moved file missing") := by
    intro fs r h
    unfold restoreStep
    simp [h]
  refine ⟨hstep, ?_⟩
  intro fs recs
  induction recs with
  | nil => intro _; rfl
  | cons r rest ih =>
    intro hall
    have h1 := hstep fs r (hall r (List.mem_cons_self r rest))
    unfold runRestore
    rw [h1]
    have h2 := ih (fun r2 hr2 => hall r2 (List.mem_cons_of_mem r hr2))
    simp only [h2]
    rfl

def c7fs : FS := { files := [], dirs := ["/d"] }

def c7rec : MoveRecord :=
  { original := ⟨"/d", "a", ".txt"⟩, moved_to := ⟨"/q", "a", ".txt"⟩,
    size := some 0, time := "t", action := "moved" }

theorem restore_skips_missing_moved_to_witness :
    (c7fs.hasFile c7rec.moved_to = false) ∧
    runRestore okOracle false false c7fs [c7rec] =
      (c7fs, { restored := [],
               skipped := [(c7rec.original, c7rec.moved_to, "moved file missing")],
               errors := [] }) :=
  ⟨by decide,
    (restore_skips_missing_moved_to okOracle false false).2 c7fs [c7rec]
      (by intro r hr; rw [List.mem_singleton] at hr; subst hr; decide)⟩

def MoveRecord.withAction (r : MoveRecord) (a : String) : MoveRecord :=
  { r with action := a }

/-- C2 counterexample: `restore_from_quarantine` replays a record tagged
`action = "dry-run"` when its `moved_to` exists on disk: the file is
relocated to `original` and the record is classified restored. -/
theorem restore_replays_dry_run_record :
    (MoveRecord.mk ⟨"/d", "a", ".txt"⟩ ⟨"/q", "a", ".txt"⟩ (some 0) "t" "dry-run").action
        = "dry-run" ∧
    (FS.mk [(⟨"/q", "a", ".txt"⟩, 0)] ["/d", "/q"]).hasFile ⟨"/q", "a", ".txt"⟩ = true ∧
    (runRestore okOracle false false (FS.mk [(⟨"/q", "a", ".txt"⟩, 0)] ["/d", "/q"])
        [MoveRecord.mk ⟨"/d", "a", ".txt"⟩ ⟨"/q", "a", ".txt"⟩ (some 0) "t" "dry-run"]).2.restored
        = [(⟨"/d", "a", ".txt"⟩, ⟨"/q", "a", ".txt"⟩)] ∧
    (runRestore okOracle false false (FS.mk [(⟨"/q", "a", ".txt"⟩, 0)] ["/d", "/q"])
        [MoveRecord.mk ⟨"/d", "a", ".txt"⟩ ⟨"/q", "a", ".txt"⟩ (some 0) "t" "dry-run"]).1.hasFile
        ⟨"/d", "a", ".txt"⟩ = true := by
  refine ⟨rfl, rfl, ?_, ?_⟩ <;> decide

/-- C2 amended: `restore_from_quarantine` never consults the `action`
field: retagging every record (in particular tagging them `dry-run`) changes
neither the resulting filesystem nor the report, so dry-run records are
replayed exactly like `moved` records whenever their `moved_to` exists. -/
theorem restore_ignores_action (oc : FSOracle) (dryRun yes : Bool) (fs : FS)
    (recs : List MoveRecord) (a : String) :
    runRestore oc dryRun yes fs (recs.map (fun r => r.withAction a)) =
      runRestore oc dryRun yes fs recs := by
  induction recs generalizing fs with
  | nil => rfl
  | cons r rest ih =>
    unfold runRestore
    have hstep : restoreStep oc dryRun yes fs (r.withAction a) = restoreStep oc dryRun yes fs r := rfl
    simp only [List.map_cons, hstep, ih]

theorem files_addDir (fs : FS) (d : String) : (fs.addDir d).files = fs.files := by
  unfold FS.addDir
  split <;> rfl

theorem hasDir_addDir_self (fs : FS) (d : String) : (fs.addDir d).hasDir d = true := by
  unfold FS.addDir
  by_cases h : fs.dirs.contains d
  · rw [if_pos h]
    exact h
  · rw [if_neg h]
    unfold FS.hasDir
    simp

theorem addDir_ne_of_missing (fs : FS) (d : String) (h : fs.hasDir d = false) :
    fs.addDir d ≠ fs := by
  intro heq
  have hd : (fs.addDir d).hasDir d = fs.hasDir d := by rw [heq]
  rw [hasDir_addDir_self, h] at hd
  exact Bool.noConfusion hd

/-- C10: A dry-run `safe_move` still creates the missing parent directory
of the destination base on disk (the `mkdir` on source line 57/60 precedes
the dry-run early return on line 64): the file table is unchanged and the
record is tagged `dry-run`, but the destination parent exists afterwards, so
a dry-run Mover call is not mutation-free when that directory was missing. -/
theorem safe_move_dry_run_creates_parent (fs : FS) (src : FPath)
    (dstDir root now : String) (preserve : Bool) :
    ((safe_move fs src dstDir preserve root now true).1.files = fs.files) ∧
    ((safe_move fs src dstDir preserve root now true).1.hasDir
        (destBase dstDir preserve root src).parent = true) ∧
    ((safe_move fs src dstDir preserve root now true).2.2.action = "dry-run") ∧
    (fs.hasDir (destBase dstDir preserve root src).parent = false →
      (safe_move fs src dstDir preserve root now true).1 ≠ fs) := by
  refine ⟨?_, ?_, ?_, ?_⟩
  · simp [safe_move, files_addDir]
  · simp [safe_move, hasDir_addDir_self]
  · simp [safe_move]
  · intro h
    simp only [safe_move]
    exact addDir_ne_of_missing fs _ h

def c10fs : FS := { files := [(⟨"/s", "a", ".txt"⟩, 0)], dirs := ["/s"] }

theorem safe_move_dry_run_creates_parent_witness :
    (c10fs.hasDir (destBase "/q" false "/s" ⟨"/s", "a", ".txt"⟩).parent = false) ∧
    (safe_move c10fs ⟨"/s", "a", ".txt"⟩ "/q" false "/s" "t" true).1 ≠ c10fs :=
  ⟨by decide,
    (safe_move_dry_run_creates_parent c10fs ⟨"/s", "a", ".txt"⟩ "/q" "/s" "t" false).2.2.2
      (by decide)⟩

/-- C5: When `moved_to` exists, `original` also exists and overwrite is
not requested, restore relocates `moved_to` to the PathNamer-uniquified
sibling of `original` (a fresh path in the directory of `original`, distinct
from `original`) and classifies the record restored to that sibling, or
errors on relocation failure; in both cases the pre-existing file at
`original` is left completely untouched. -/
theorem restore_no_overwrite_uses_sibling (oc : FSOracle) (fs : FS) (r : MoveRecord)
    (hmt : fs.hasFile r.moved_to = true)
    (horig : fs.hasFile r.original = true)
    (hpar : fs.hasDir r.original.parent = true)
    (hne : r.moved_to ≠ r.original) :
    (unique_path_if_exists fs r.original ≠ r.original ∧
      (unique_path_if_exists fs r.original).parent = r.original.parent ∧
      fs.hasFile (unique_path_if_exists fs r.original) = false) ∧
    (oc.moveOk r.moved_to (unique_path_if_exists fs r.original) = true →
      restoreStep oc false false fs r =
        (fs.moveFile r.moved_to (unique_path_if_exists fs r.original),
          ROutcome.restored (unique_path_if_exists fs r.original) r.moved_to) ∧
      (fs.moveFile r.moved_to (unique_path_if_exists fs r.original)).sizeOf? r.original =
        fs.sizeOf? r.original) ∧
    (oc.moveOk r.moved_to (unique_path_if_exists fs r.original) = false →
      restoreStep oc false false fs r =
        (fs, ROutcome.error r.original r.moved_to "collision handling error") ∧
      fs.sizeOf? r.original = fs.sizeOf? r.original) := by
  have hcand_ne : unique_path_if_exists fs r.original ≠ r.original := by
    obtain ⟨n, _, heq, _, _⟩ := unique_path_of_present fs r.original horig
    rw [heq]
    exact candidateAt_ne _ n
  obtain ⟨sz, hsz⟩ : ∃ n, fs.sizeOf? r.moved_to = some n := by
    cases h : fs.sizeOf? r.moved_to
    · rw [FS.hasFile, h] at hmt
      exact Bool.noConfusion hmt
    · exact ⟨_, rfl⟩
  refine ⟨⟨hcand_ne, (unique_path_keeps_shape fs r.original).1,
    unique_path_not_exists fs r.original⟩, ?_, ?_⟩
  · intro hmove
    constructor
    · unfold restoreStep
      simp [hmt, horig, hpar, hmove]
    · rw [sizeOf?_moveFile fs r.moved_to _ hsz, if_neg hcand_ne,
        if_neg (fun h => hne h.symm)]
  · intro hmove
    constructor
    · unfold restoreStep
      simp [hmt, horig, hpar, hmove]
    · rfl

def c5fs : FS := { files := [(⟨"/d", "a", ".txt"⟩, 3), (⟨"/q", "a", ".txt"⟩, 0)],
                   dirs := ["/d", "/q"] }

def c5rec : MoveRecord :=
  { original := ⟨"/d", "a", ".txt"⟩, moved_to := ⟨"/q", "a", ".txt"⟩,
    size := some 0, time := "t", action := "moved" }

theorem restore_no_overwrite_uses_sibling_witness :
    (c5fs.hasFile c5rec.moved_to = true ∧ c5fs.hasFile c5rec.original = true) ∧
    (restoreStep okOracle false false c5fs c5rec =
      (c5fs.moveFile c5rec.moved_to (unique_path_if_exists c5fs c5rec.original),
        ROutcome.restored (unique_path_if_exists c5fs c5rec.original) c5rec.moved_to) ∧
      (c5fs.moveFile c5rec.moved_to (unique_path_if_exists c5fs c5rec.original)).sizeOf?
          c5rec.original = c5fs.sizeOf? c5rec.original) :=
  ⟨⟨by decide, by decide⟩,
    (restore_no_overwrite_uses_sibling okOracle c5fs c5rec (by decide) (by decide)
      (by decide) (by decide)).2.1 rfl⟩

/-- C4: When `moved_to` and `original` both exist and overwrite is
requested, restore first attempts to delete `original` and relocate
`moved_to` to `original`, reporting restored-to-`original` on success; if the
deletion fails it falls back to relocating `moved_to` to the
PathNamer-uniquified sibling of `original`, reporting restored-to-sibling;
if the relocation after a successful deletion fails, the fallback target is
`unique(original)` (which is `original` itself again, `original` having just
been removed) and the same relocation fails again, so the record errors: in
every case the record is classified error only when the fallback also
fails. -/
theorem restore_overwrite_behavior (oc : FSOracle) (fs : FS) (r : MoveRecord)
    (hmt : fs.hasFile r.moved_to = true)
    (horig : fs.hasFile r.original = true)
    (hpar : fs.hasDir r.original.parent = true) :
    (oc.unlinkOk r.original = true → oc.moveOk r.moved_to r.original = true →
      restoreStep oc false true fs r =
        ((fs.removeFile r.original).moveFile r.moved_to r.original,
          ROutcome.restored r.original r.moved_to)) ∧
    (oc.unlinkOk r.original = false →
      unique_path_if_exists fs r.original ≠ r.original ∧
      (oc.moveOk r.moved_to (unique_path_if_exists fs r.original) = true →
        restoreStep oc false true fs r =
          (fs.moveFile r.moved_to (unique_path_if_exists fs r.original),
            ROutcome.restored (unique_path_if_exists fs r.original) r.moved_to)) ∧
      (oc.moveOk r.moved_to (unique_path_if_exists fs r.original) = false →
        restoreStep oc false true fs r =
          (fs, ROutcome.error r.original r.moved_to "overwrite error; fallback failed"))) ∧
    (oc.unlinkOk r.original = true → oc.moveOk r.moved_to r.original = false →
      unique_path_if_exists (fs.removeFile r.original) r.original = r.original ∧
      restoreStep oc false true fs r =
        (fs.removeFile r.original,
          ROutcome.error r.original r.moved_to "overwrite error; fallback failed")) := by
  refine ⟨?_, ?_, ?_⟩
  · intro hU hM
    unfold restoreStep
    simp [hmt, horig, hpar, hU, hM]
  · intro hU
    have hcand_ne : unique_path_if_exists fs r.original ≠ r.original := by
      obtain ⟨n, _, heq, _, _⟩ := unique_path_of_present fs r.original horig
      rw [heq]
      exact candidateAt_ne _ n
    refine ⟨hcand_ne, ?_, ?_⟩
    · intro hM
      unfold restoreStep
      simp [hmt, horig, hpar, hU, hM]
    · intro hM
      unfold restoreStep
      simp [hmt, horig, hpar, hU, hM]
  · intro hU hM
    have habsent : (fs.removeFile r.original).hasFile r.original = false := by
      unfold FS.hasFile
      rw [sizeOf?_removeFile, if_pos rfl]
      rfl
    have hcand : unique_path_if_exists (fs.removeFile r.original) r.original = r.original :=
      unique_path_of_absent _ _ habsent
    refine ⟨hcand, ?_⟩
    unfold restoreStep
    simp [hmt, horig, hpar, hU, hM, hcand]

def c4oracle : FSOracle where
  unlinkOk := fun _ => false
  moveOk := fun _ _ => true
  mkdirOk := fun _ => true

def c4fs : FS := { files := [(⟨"/d", "a", ".txt"⟩, 1), (⟨"/q", "a", ".txt"⟩, 0)],
                   dirs := ["/d", "/q"] }

def c4rec : MoveRecord :=
  { original := ⟨"/d", "a", ".txt"⟩, moved_to := ⟨"/q", "a", ".txt"⟩,
    size := some 0, time := "t", action := "moved" }

theorem restore_overwrite_behavior_witness :
    (c4oracle.unlinkOk c4rec.original = false) ∧
    (unique_path_if_exists c4fs c4rec.original ≠ c4rec.original ∧
      (c4oracle.moveOk c4rec.moved_to (unique_path_if_exists c4fs c4rec.original) = true →
        restoreStep c4oracle false true c4fs c4rec =
          (c4fs.moveFile c4rec.moved_to (unique_path_if_exists c4fs c4rec.original),
            ROutcome.restored (unique_path_if_exists c4fs c4rec.original) c4rec.moved_to)) ∧
      (c4oracle.moveOk c4rec.moved_to (unique_path_if_exists c4fs c4rec.original) = false →
        restoreStep c4oracle false true c4fs c4rec =
          (c4fs, ROutcome.error c4rec.original c4rec.moved_to
            "overwrite error; fallback failed"))) :=
  ⟨rfl, (restore_overwrite_behavior c4oracle c4fs c4rec (by decide) (by decide)
    (by decide)).2.1 rfl⟩

/-- A restore step over a record whose `moved_to` exists and whose `original`
is absent (all OS calls succeeding) relocates `moved_to` back to `original`
and reports it restored, whether or not the parent directory had to be
created first. -/
theorem restoreStep_move_back (fs : FS) (r : MoveRecord) (n : Nat)
    (hmt : fs.sizeOf? r.moved_to = some n)
    (horig : fs.hasFile r.original = false) :
    (restoreStep okOracle false false fs r).2 = ROutcome.restored r.original r.moved_to ∧
    ∀ q, (restoreStep okOracle false false fs r).1.sizeOf? q =
      if r.original = q then some n else if q = r.moved_to then none else fs.sizeOf? q := by
  have hmtb : fs.hasFile r.moved_to = true := by
    unfold FS.hasFile
    rw [hmt]
    rfl
  unfold restoreStep
  by_cases hd : fs.hasDir r.original.parent = false
  · have hmt1 : (fs.addDir r.original.parent).sizeOf? r.moved_to = some n := by
      rw [sizeOf?_addDir]
      exact hmt
    constructor
    · simp [hmtb, hd, horig, okOracle, hasFile_addDir]
    · intro q
      simp [hmtb, hd, horig, okOracle, hasFile_addDir,
        sizeOf?_moveFile _ _ _ hmt1, sizeOf?_addDir]
  · constructor
    · simp [hmtb, hd, horig, okOracle]
    · intro q
      simp [hmtb, hd, horig, okOracle, sizeOf?_moveFile _ _ _ hmt]

/-- Precondition for the round-trip restore run: the `moved_to` of every record
is a 0-byte file inside the quarantine directory, every `original` is absent
and outside the quarantine directory, and both path columns are
duplicate-free. -/
def RRestorePre (qdir : String) (fs : FS) (recs : List MoveRecord) : Prop :=
  (∀ r ∈ recs, r.moved_to.parent = qdir ∧ fs.sizeOf? r.moved_to = some 0 ∧
    fs.hasFile r.original = false ∧ r.original.parent ≠ qdir) ∧
  (recs.map (fun r => r.moved_to)).Nodup ∧
  (recs.map (fun r => r.original)).Nodup

theorem runRestore_roundtrip_aux (qdir : String) :
    ∀ (recs : List MoveRecord) (fs : FS), RRestorePre qdir fs recs →
      (runRestore okOracle false false fs recs).2 =
        { restored := recs.map (fun r => (r.original, r.moved_to)),
          skipped := [], errors := [] } ∧
      (∀ r ∈ recs, (runRestore okOracle false false fs recs).1.sizeOf? r.original = some 0) ∧
      (∀ p : FPath, p ∉ recs.map (fun r => r.moved_to) →
        p ∉ recs.map (fun r => r.original) →
        (runRestore okOracle false false fs recs).1.sizeOf? p = fs.sizeOf? p) := by
  intro recs
  induction recs with
  | nil =>
    intro fs _
    refine ⟨rfl, ?_, ?_⟩
    · intro r hr
      exact absurd hr (List.not_mem_nil r)
    · intro p _ _
      rfl
  | cons r rest ih =>
    intro fs hpre
    obtain ⟨hall, hndm, hndo⟩ := hpre
    obtain ⟨hparq, hmt, horig, hopar⟩ := hall r (List.mem_cons_self r rest)
    obtain ⟨hout, hfs⟩ := restoreStep_move_back fs r 0 hmt horig
    have hstep : restoreStep okOracle false false fs r =
        ((restoreStep okOracle false false fs r).1, ROutcome.restored r.original r.moved_to) := by
      rw [← hout]
    set fs1 := (restoreStep okOracle false false fs r).1 with hfs1
    have hndm1 : (rest.map (fun r => r.moved_to)).Nodup := (List.nodup_cons.mp hndm).2
    have hndo1 : (rest.map (fun r => r.original)).Nodup := (List.nodup_cons.mp hndo).2
    have hmtnm : r.moved_to ∉ rest.map (fun r => r.moved_to) := (List.nodup_cons.mp hndm).1
    have honm : r.original ∉ rest.map (fun r => r.original) := (List.nodup_cons.mp hndo).1
    have hpre1 : RRestorePre qdir fs1 rest := by
      refine ⟨?_, hndm1, hndo1⟩
      intro r2 hr2
      obtain ⟨hparq2, hmt2, horig2, hopar2⟩ := hall r2 (List.mem_cons_of_mem r hr2)
      refine ⟨hparq2, ?_, ?_, hopar2⟩
      · rw [hfs r2.moved_to]
        rw [if_neg, if_neg]
        · exact hmt2
        · intro he
          exact hmtnm (by rw [← he]; exact List.mem_map_of_mem (fun r => r.moved_to) hr2)
        · intro he
          exact hopar (by rw [he]; exact hparq2)
      · unfold FS.hasFile
        rw [hfs r2.original]
        rw [if_neg, if_neg]
        · have horig2b : (fs.sizeOf? r2.original).isSome = false := horig2
          exact horig2b
        · intro he
          exact hopar2 (by rw [he]; exact hparq)
        · intro he
          exact honm (by rw [he]; exact List.mem_map_of_mem (fun r => r.original) hr2)
    obtain ⟨hrep2, hsz2, hframe2⟩ := ih fs1 hpre1
    have hcons : runRestore okOracle false false fs (r :: rest) =
        ((runRestore okOracle false false (restoreStep okOracle false false fs r).1 rest).1,
          consOutcome (restoreStep okOracle false false fs r).2
            (runRestore okOracle false false (restoreStep okOracle false false fs r).1 rest).2) :=
      rfl
    have hrun : runRestore okOracle false false fs (r :: rest) =
        ((runRestore okOracle false false fs1 rest).1,
          consOutcome (ROutcome.restored r.original r.moved_to)
            (runRestore okOracle false false fs1 rest).2) := by
      rw [hcons, hout]
    refine ⟨?_, ?_, ?_⟩
    · rw [hrun, hrep2]
      rfl
    · intro r2 hr2
      rw [hrun]
      rcases List.mem_cons.mp hr2 with heq | hmem
      · subst heq
        rw [hframe2]
        · rw [hfs r2.original, if_pos rfl]
        · intro hin
          obtain ⟨r3, hr3, hr3e⟩ := List.mem_map.mp hin
          obtain ⟨hparq3, _, _, _⟩ := hall r3 (List.mem_cons_of_mem r2 hr3)
          exact hopar (by rw [← hr3e]; exact hparq3)
        · exact honm
      · exact hsz2 r2 hmem
    · intro p hpm hpo
      rw [hrun]
      have hpm1 : p ∉ rest.map (fun r => r.moved_to) :=
        fun h => hpm (List.mem_cons_of_mem _ h)
      have hpo1 : p ∉ rest.map (fun r => r.original) :=
        fun h => hpo (List.mem_cons_of_mem _ h)
      rw [hframe2 p hpm1 hpo1, hfs p, if_neg, if_neg]
      · intro he
        exact hpm (by rw [he]; exact List.mem_cons_self _ _)
      · intro he
        exact hpo (by rw [← he]; exact List.mem_cons_self _ _)

/-- The per-file move loop of the scan flow of `main` (source lines 257–264) with
`dry_run=False`: each discovered file is handed to `safe_move` and the
metadata dicts are collected in discovery order. -/
def quarantineLoop (qdir root now : String) (preserve : Bool) :
    FS → List FPath → FS × List MoveRecord
  | fs, [] => (fs, [])
  | fs, src :: rest =>
    let step := safe_move fs src qdir preserve root now false
    let next := quarantineLoop qdir root now preserve step.1 rest
    (next.1, step.2.2 :: next.2)

/-- Elementary facts about one flat (`preserve_structure=False`) move of a
0-byte file into the quarantine directory. -/
theorem quarantine_step_facts (fs : FS) (s : FPath) (qdir : String)
    (hs0 : fs.sizeOf? s = some 0) :
    (unique_path_if_exists (fs.addDir qdir) ⟨qdir, s.stem, s.suffix⟩).parent = qdir ∧
    fs.hasFile (unique_path_if_exists (fs.addDir qdir) ⟨qdir, s.stem, s.suffix⟩) = false ∧
    ∀ q, ((fs.addDir qdir).moveFile s
        (unique_path_if_exists (fs.addDir qdir) ⟨qdir, s.stem, s.suffix⟩)).sizeOf? q =
      if unique_path_if_exists (fs.addDir qdir) ⟨qdir, s.stem, s.suffix⟩ = q then some 0
      else if q = s then none else fs.sizeOf? q := by
  refine ⟨(unique_path_keeps_shape _ _).1, ?_, ?_⟩
  · rw [← hasFile_addDir fs qdir]
    exact unique_path_not_exists _ _
  · intro q
    have hs1 : (fs.addDir qdir).sizeOf? s = some 0 := by
      rw [sizeOf?_addDir]
      exact hs0
    rw [sizeOf?_moveFile _ _ _ hs1 q, sizeOf?_addDir]

/-- Invariant established by a flat quarantine pass over duplicate-free
0-byte files living outside the quarantine directory. -/
theorem quarantineLoop_spec (qdir root now : String) :
    ∀ (srcs : List FPath) (fs : FS),
      srcs.Nodup →
      (∀ s ∈ srcs, fs.sizeOf? s = some 0) →
      (∀ s ∈ srcs, s.parent ≠ qdir) →
      ((quarantineLoop qdir root now false fs srcs).2.map (fun r => r.original) = srcs) ∧
      (∀ r ∈ (quarantineLoop qdir root now false fs srcs).2,
        r.moved_to.parent = qdir ∧
        (quarantineLoop qdir root now false fs srcs).1.sizeOf? r.moved_to = some 0 ∧
        (quarantineLoop qdir root now false fs srcs).1.hasFile r.original = false ∧
        fs.hasFile r.moved_to = false) ∧
      ((quarantineLoop qdir root now false fs srcs).2.map (fun r => r.moved_to)).Nodup ∧
      (∀ p : FPath, p.parent ≠ qdir → p ∉ srcs →
        (quarantineLoop qdir root now false fs srcs).1.sizeOf? p = fs.sizeOf? p) ∧
      (∀ p : FPath, fs.hasFile p = true → p.parent = qdir →
        (quarantineLoop qdir root now false fs srcs).1.sizeOf? p = fs.sizeOf? p) := by
  intro srcs
  induction srcs with
  | nil =>
    intro fs _ _ _
    refine ⟨rfl, ?_, List.nodup_nil, ?_, ?_⟩
    · intro r hr
      exact absurd hr (List.not_mem_nil r)
    · intro p _ _
      rfl
    · intro p _ _
      rfl
  | cons s rest ih =>
    intro fs hnd hsz hq
    have hs_mem : s ∈ s :: rest := List.mem_cons_self s rest
    have hnd' := List.nodup_cons.mp hnd
    have hspar : s.parent ≠ qdir := hq s hs_mem
    obtain ⟨hfd_par, hfd_not, hfs2q⟩ := quarantine_step_facts fs s qdir (hsz s hs_mem)
    have hcons : quarantineLoop qdir root now false fs (s :: rest) =
        ((quarantineLoop qdir root now false
            ((fs.addDir qdir).moveFile s
              (unique_path_if_exists (fs.addDir qdir) ⟨qdir, s.stem, s.suffix⟩)) rest).1,
          { original := s,
            moved_to := unique_path_if_exists (fs.addDir qdir) ⟨qdir, s.stem, s.suffix⟩,
            size := ((fs.addDir qdir).moveFile s
                (unique_path_if_exists (fs.addDir qdir) ⟨qdir, s.stem, s.suffix⟩)).sizeOf?
                (unique_path_if_exists (fs.addDir qdir) ⟨qdir, s.stem, s.suffix⟩),
            time := now, action := "moved" } ::
          (quarantineLoop qdir root now false
            ((fs.addDir qdir).moveFile s
              (unique_path_if_exists (fs.addDir qdir) ⟨qdir, s.stem, s.suffix⟩)) rest).2) := rfl
    rw [hcons]
    generalize hfd : unique_path_if_exists (fs.addDir qdir) ⟨qdir, s.stem, s.suffix⟩ = fd
      at hfd_par hfd_not hfs2q ⊢
    generalize hfs2 : (fs.addDir qdir).moveFile s fd = fs2 at hfs2q ⊢
    have hfd_ne_s : fd ≠ s := by
      intro he
      exact hspar (by rw [← he]; exact hfd_par)
    have hfs2fd : fs2.sizeOf? fd = some 0 := by
      rw [hfs2q fd, if_pos rfl]
    have hfs2fd_file : fs2.hasFile fd = true := by
      unfold FS.hasFile
      rw [hfs2fd]
      rfl
    have hsz2 : ∀ t ∈ rest, fs2.sizeOf? t = some 0 := by
      intro t ht
      rw [hfs2q t, if_neg, if_neg]
      · exact hsz t (List.mem_cons_of_mem s ht)
      · intro he
        exact hnd'.1 (he ▸ ht)
      · intro he
        exact hq t (List.mem_cons_of_mem s ht) (by rw [← he]; exact hfd_par)
    obtain ⟨ha, hb, hc, hg, hh⟩ :=
      ih fs2 hnd'.2 hsz2 (fun t ht => hq t (List.mem_cons_of_mem s ht))
    refine ⟨?_, ?_, ?_, ?_, ?_⟩
    · simp only [List.map_cons, ha]
    · intro r hr
      rcases List.mem_cons.mp hr with heq | hmem
      · subst heq
        refine ⟨hfd_par, ?_, ?_, hfd_not⟩
        · rw [hh fd hfs2fd_file hfd_par]
          exact hfs2fd
        · unfold FS.hasFile
          rw [hg s hspar hnd'.1]
          rw [hfs2q s, if_neg hfd_ne_s, if_pos rfl]
          rfl
      · obtain ⟨p1, p2, p3, p4⟩ := hb r hmem
        refine ⟨p1, p2, p3, ?_⟩
        have h4 : (fs2.sizeOf? r.moved_to).isSome = false := p4
        rw [hfs2q r.moved_to] at h4
        by_cases h1 : fd = r.moved_to
        · rw [if_pos h1] at h4
          exact absurd h4 (by simp)
        · rw [if_neg h1] at h4
          by_cases h2 : r.moved_to = s
          · exact absurd (by rw [← h2]; exact p1) hspar
          · rw [if_neg h2] at h4
            exact h4
    · simp only [List.map_cons]
      refine List.nodup_cons.mpr ⟨?_, hc⟩
      intro hin
      obtain ⟨r, hr, he⟩ := List.mem_map.mp hin
      obtain ⟨_, _, _, p4⟩ := hb r hr
      rw [he] at p4
      rw [hfs2fd_file] at p4
      exact Bool.noConfusion p4
    · intro p hppar hpnot
      have hps : p ≠ s := fun he => hpnot (he ▸ List.mem_cons_self s rest)
      have hprest : p ∉ rest := fun hin => hpnot (List.mem_cons_of_mem s hin)
      rw [hg p hppar hprest, hfs2q p, if_neg, if_neg hps]
      intro he
      exact hppar (by rw [← he]; exact hfd_par)
    · intro p hpfile hppar
      have hpfd : fd ≠ p := by
        intro he
        rw [he] at hfd_not
        rw [hpfile] at hfd_not
        exact Bool.noConfusion hfd_not
      have hps : p ≠ s := by
        intro he
        exact hspar (by rw [← he]; exact hppar)
      have hfs2p : fs2.sizeOf? p = fs.sizeOf? p := by
        rw [hfs2q p, if_neg hpfd, if_neg hps]
      have hfs2p_file : fs2.hasFile p = true := by
        unfold FS.hasFile
        rw [hfs2p]
        exact hpfile
      rw [hh p hfs2p_file hppar]
      exact hfs2p

/-- C1: Round-trip: quarantining a duplicate-free set of 0-byte files
(living outside the quarantine directory, with nothing pre-existing at their
original paths afterwards and no intervening filesystem changes) and then
restoring with `overwrite=false` puts every file back at its recorded
original path with its 0-byte length preserved, and the restore report has
zero skipped and zero error entries. -/
theorem quarantine_restore_roundtrip (fs0 : FS) (srcs : List FPath)
    (qdir root now : String)
    (hnd : srcs.Nodup)
    (hsz : ∀ s ∈ srcs, fs0.sizeOf? s = some 0)
    (hq : ∀ s ∈ srcs, s.parent ≠ qdir) :
    (runRestore okOracle false false (quarantineLoop qdir root now false fs0 srcs).1
        (quarantineLoop qdir root now false fs0 srcs).2).2.skipped = [] ∧
    (runRestore okOracle false false (quarantineLoop qdir root now false fs0 srcs).1
        (quarantineLoop qdir root now false fs0 srcs).2).2.errors = [] ∧
    ((quarantineLoop qdir root now false fs0 srcs).2.map (fun r => r.original) = srcs) ∧
    (∀ s ∈ srcs,
      (runRestore okOracle false false (quarantineLoop qdir root now false fs0 srcs).1
          (quarantineLoop qdir root now false fs0 srcs).2).1.sizeOf? s = some 0) := by
  obtain ⟨ha, hb, hc, _, _⟩ := quarantineLoop_spec qdir root now srcs fs0 hnd hsz hq
  have hpre : RRestorePre qdir (quarantineLoop qdir root now false fs0 srcs).1
      (quarantineLoop qdir root now false fs0 srcs).2 := by
    refine ⟨?_, hc, ?_⟩
    · intro r hr
      obtain ⟨p1, p2, p3, _⟩ := hb r hr
      refine ⟨p1, p2, p3, ?_⟩
      have hmem : r.original ∈ srcs := by
        rw [← ha]
        exact List.mem_map_of_mem (fun r => r.original) hr
      exact hq r.original hmem
    · rw [ha]
      exact hnd
  obtain ⟨hrep, hsz2, _⟩ := runRestore_roundtrip_aux qdir
    (quarantineLoop qdir root now false fs0 srcs).2
    (quarantineLoop qdir root now false fs0 srcs).1 hpre
  refine ⟨?_, ?_, ha, ?_⟩
  · rw [hrep]
  · rw [hrep]
  · intro s hs
    have hmem : s ∈ (quarantineLoop qdir root now false fs0 srcs).2.map
        (fun r => r.original) := by
      rw [ha]
      exact hs
    obtain ⟨r, hr, he⟩ := List.mem_map.mp hmem
    rw [← he]
    exact hsz2 r hr

def c1fs : FS :=
  { files := [(⟨"/a", "f", ".txt"⟩, 0), (⟨"/b", "f", ".txt"⟩, 0)], dirs := ["/a", "/b"] }

theorem quarantine_restore_roundtrip_witness :
    (([⟨"/a", "f", ".txt"⟩, ⟨"/b", "f", ".txt"⟩] : List FPath).Nodup ∧
      (∀ s ∈ ([⟨"/a", "f", ".txt"⟩, ⟨"/b", "f", ".txt"⟩] : List FPath),
        c1fs.sizeOf? s = some 0) ∧
      (∀ s ∈ ([⟨"/a", "f", ".txt"⟩, ⟨"/b", "f", ".txt"⟩] : List FPath),
        s.parent ≠ "/q")) ∧
    (runRestore okOracle false false
        (quarantineLoop "/q" "/t" "now" false c1fs
          [⟨"/a", "f", ".txt"⟩, ⟨"/b", "f", ".txt"⟩]).1
        (quarantineLoop "/q" "/t" "now" false c1fs
          [⟨"/a", "f", ".txt"⟩, ⟨"/b", "f", ".txt"⟩]).2).2.skipped = [] ∧
    (runRestore okOracle false false
        (quarantineLoop "/q" "/t" "now" false c1fs
          [⟨"/a", "f", ".txt"⟩, ⟨"/b", "f", ".txt"⟩]).1
        (quarantineLoop "/q" "/t" "now" false c1fs
          [⟨"/a", "f", ".txt"⟩, ⟨"/b", "f", ".txt"⟩]).2).2.errors = [] ∧
    ((quarantineLoop "/q" "/t" "now" false c1fs
        [⟨"/a", "f", ".txt"⟩, ⟨"/b", "f", ".txt"⟩]).2.map (fun r => r.original) =
      [⟨"/a", "f", ".txt"⟩, ⟨"/b", "f", ".txt"⟩]) ∧
    (∀ s ∈ ([⟨"/a", "f", ".txt"⟩, ⟨"/b", "f", ".txt"⟩] : List FPath),
      (runRestore okOracle false false
          (quarantineLoop "/q" "/t" "now" false c1fs
            [⟨"/a", "f", ".txt"⟩, ⟨"/b", "f", ".txt"⟩]).1
          (quarantineLoop "/q" "/t" "now" false c1fs
            [⟨"/a", "f", ".txt"⟩, ⟨"/b", "f", ".txt"⟩]).2).1.sizeOf? s = some 0) :=
  ⟨⟨by decide, by decide, by decide⟩,
    quarantine_restore_roundtrip c1fs [⟨"/a", "f", ".txt"⟩, ⟨"/b", "f", ".txt"⟩]
      "/q" "/t" "now" (by decide) (by decide) (by decide)⟩

/-- The user-visible output of the scan mode of `main`: the listing printed at
source lines 239–241, and the `[MOVED] src -> dest` lines printed at source
line 262.  A dry run prints only the listing. -/
structure ScanReport where
  listedFiles : List FPath
  plannedMoves : List (FPath × FPath)
deriving DecidableEq, Repr

/-- Embedding of the scan flow of `main` after discovery (source lines 234–277).  When nothing
was found it reports and stops; on `--dry-run` it returns at lines 243–245,
*before* `make_quarantine_dir` and before any `safe_move`, printing only the
listing; otherwise it creates the quarantine directory, moves every file and
persists the records via `write_metadata` when any were produced. -/
def mainScanAfterDiscovery (fs : FS) (jf : JournalFile) (emptyFiles : List FPath)
    (dryRun preserve : Bool) (qdir root now : String) :
    FS × JournalFile × ScanReport :=
  if emptyFiles.isEmpty then (fs, jf, { listedFiles := [], plannedMoves := [] })
  else if dryRun then (fs, jf, { listedFiles := emptyFiles, plannedMoves := [] })
  else
    let fs1 := fs.addDir qdir
    let loop := quarantineLoop qdir root now preserve fs1 emptyFiles
    let jf1 := if loop.2.isEmpty then jf else write_metadata jf loop.2
    (loop.1, jf1,
      { listedFiles := emptyFiles,
        plannedMoves := loop.2.map (fun r => (r.original, r.moved_to)) })

/-- C8 counterexample: On a dry-run scan that discovers `/t/a.txt`, the
filesystem and journal are unchanged and the discovered file is listed, but
the report pairs it with no would-be destination: the dry-run branch returns
before any destination is computed, so the plan lists files only. -/
theorem dry_run_scan_lists_no_destination :
    (mainScanAfterDiscovery (FS.mk [(⟨"/t", "a", ".txt"⟩, 0)] ["/t"]) JournalFile.absent
        [⟨"/t", "a", ".txt"⟩] true false "/t/q" "/t" "now").1 =
      FS.mk [(⟨"/t", "a", ".txt"⟩, 0)] ["/t"] ∧
    (mainScanAfterDiscovery (FS.mk [(⟨"/t", "a", ".txt"⟩, 0)] ["/t"]) JournalFile.absent
        [⟨"/t", "a", ".txt"⟩] true false "/t/q" "/t" "now").2.2.listedFiles =
      [⟨"/t", "a", ".txt"⟩] ∧
    ¬ ∃ d : FPath, (⟨"/t", "a", ".txt"⟩, d) ∈
      (mainScanAfterDiscovery (FS.mk [(⟨"/t", "a", ".txt"⟩, 0)] ["/t"]) JournalFile.absent
        [⟨"/t", "a", ".txt"⟩] true false "/t/q" "/t" "now").2.2.plannedMoves := by
  refine ⟨rfl, rfl, ?_⟩
  intro hex
  obtain ⟨d, hd⟩ := hex
  simp [mainScanAfterDiscovery] at hd

/-- C8 amended: A dry-run quarantine pass leaves the filesystem and the
journal unchanged (no quarantine directory with moved content persists, and
nothing is written to any journal), and the report lists exactly the
discovered empty files — but it contains no would-be destination paths,
because the dry-run branch of `main` returns before computing any. -/
theorem dry_run_scan_unchanged (fs : FS) (jf : JournalFile) (emptyFiles : List FPath)
    (preserve : Bool) (qdir root now : String) :
    mainScanAfterDiscovery fs jf emptyFiles true preserve qdir root now =
      (fs, jf, { listedFiles := emptyFiles, plannedMoves := [] }) := by
  cases emptyFiles with
  | nil => rfl
  | cons a l => rfl
